import Mathlib

/-!
# A shallow embedding of the `libcoinche` rules engine

This file embeds the core of the `libcoinche` crate (a rules engine for the
French card game coinche) in Lean 4, and proves properties of the embedded
code: the auction state machine (`bid.rs`), the play/trick engine (`game.rs`,
`trick.rs`), the scoring tables (`points.rs`) and the card primitives
(`cards.rs`, `pos.rs`).

The source stores cards and hands as `u32` bit masks: a suit is one of the
bits `1, 1 << 8, 1 << 16, 1 << 24`, a rank one of `1, 2, ..., 1 << 7`, a card
`Card(u32)` is always built by `Card::new` as `suit * rank` (a single bit),
and a hand is the union of its cards' bits.  We keep `Suit`, `Rank` as
enumerations carrying their discriminant values, represent a card by its
(suit, rank) decomposition together with its bit value `Card.val`, and keep
`Hand` as the raw bit mask with the source's bitwise operations.

Mutating methods (`&mut self` in Rust) are embedded by explicit state
passing: a call that mutates `self` and returns `Result<T, E>` becomes a
function returning `Except E (T × State)`, where errors return no new state
(the source's early `return Err(..)` paths mutate nothing).

The provided `trick.rs` is an older snapshot that stores the trick's cards in
a `Vec` in play order, while `game.rs` (`highest_trump`) reads
`trick.cards[p as usize]` as a per-seat `Option<Card>` slot.  We use the
per-seat-slot representation, the one `game.rs` is written against; the
winner update in `Trick::play_card` reads the current winner's card in both
representations, so the two agree on well-formed tricks.
-/

namespace Libcoinche

/-- One of the four suits (`cards.rs`, `enum Suit`). -/
inductive Suit
  | Heart
  | Spade
  | Diamond
  | Club
deriving DecidableEq, Repr

/-- The `u32` discriminant of a suit (`Heart = 1 << 0`, `Spade = 1 << 8`,
`Diamond = 1 << 16`, `Club = 1 << 24`). -/
def Suit.val : Suit → Nat
  | .Heart => 1
  | .Spade => 1 <<< 8
  | .Diamond => 1 <<< 16
  | .Club => 1 <<< 24

/-- Rank of a card in a suit (`cards.rs`, `enum Rank`). -/
inductive Rank
  | Rank7
  | Rank8
  | Rank9
  | RankJ
  | RankQ
  | RankK
  | RankX
  | RankA
deriving DecidableEq, Repr

/-- The `u32` discriminant of a rank (`Rank7 = 1 << 0`, ..., `RankA = 1 << 7`). -/
def Rank.val : Rank → Nat
  | .Rank7 => 1
  | .Rank8 => 2
  | .Rank9 => 4
  | .RankJ => 8
  | .RankQ => 16
  | .RankK => 32
  | .RankX => 64
  | .RankA => 128

/-- Embeds `Rank::from_n` (`cards.rs`): the rank with the given index.  The source
panics for `n >= 8`; every caller (`has_higher`) passes `n < 8`, and we
return `Rank7` on the unreachable branch. -/
def Rank.from_n : Nat → Rank
  | 0 => .Rank7
  | 1 => .Rank8
  | 2 => .Rank9
  | 3 => .RankJ
  | 4 => .RankQ
  | 5 => .RankK
  | 6 => .RankX
  | 7 => .RankA
  | _ => .Rank7

/-- Bit mask over all ranks (`cards.rs`, `RANK_MASK`). -/
def RANK_MASK : Nat := 255

/-- A single card.  In the source `Card(u32)` always holds `suit * rank`
(a single bit, see `Card::new`); we carry the decoded pair, with `Card.val`
the bit value. -/
structure Card where
  suit : Suit
  rank : Rank
deriving DecidableEq, Repr

/-- The `u32` value of a card: `Card::new(suit, rank)` is `Card(suit * rank)`. -/
def Card.val (c : Card) : Nat := c.suit.val * c.rank.val

/-- Embeds `Card::new` (`cards.rs`). -/
def Card.new (suit : Suit) (rank : Rank) : Card := ⟨suit, rank⟩

/-- An unordered set of cards as a `u32` bit set (`cards.rs`, `Hand(u32)`). -/
structure Hand where
  bits : Nat
deriving DecidableEq, Repr

/-- Embeds `Hand::new` (`cards.rs`): the empty hand. -/
def Hand.new : Hand := ⟨0⟩

/-- Embeds `Hand::add` (`cards.rs`): `self.0 |= card.0`. -/
def Hand.add (h : Hand) (c : Card) : Hand := ⟨h.bits ||| c.val⟩

/-- The `u32` bitwise complement used by `Hand::remove` (`!card.0`). -/
def u32not (n : Nat) : Nat := (2 ^ 32 - 1) ^^^ n

/-- Embeds `Hand::remove` (`cards.rs`): `self.0 &= !card.0`. -/
def Hand.remove (h : Hand) (c : Card) : Hand := ⟨h.bits &&& u32not c.val⟩

/-- Embeds `Hand::has` (`cards.rs`): `(self.0 & card.0) != 0`. -/
def Hand.has (h : Hand) (c : Card) : Bool := h.bits &&& c.val ≠ 0

/-- Embeds `Hand::has_any` (`cards.rs`): `(self.0 & (RANK_MASK * suit as u32)) != 0`. -/
def Hand.has_any (h : Hand) (s : Suit) : Bool := h.bits &&& (RANK_MASK * s.val) ≠ 0

/-- Embeds `Hand::is_empty` (`cards.rs`). -/
def Hand.is_empty (h : Hand) : Bool := h.bits = 0

/-- One of the two teams (`pos.rs`, `enum Team`). -/
inductive Team
  | T02
  | T13
deriving DecidableEq, Repr

/-- Embeds `Team::opponent` (`pos.rs`). -/
def Team.opponent : Team → Team
  | .T02 => .T13
  | .T13 => .T02

/-- A position at the table (`pos.rs`, `enum PlayerPos`). -/
inductive PlayerPos
  | P0
  | P1
  | P2
  | P3
deriving DecidableEq, Repr

/-- The discriminant of a seat (`self as usize`). -/
def PlayerPos.toNat : PlayerPos → Nat
  | .P0 => 0
  | .P1 => 1
  | .P2 => 2
  | .P3 => 3

/-- Embeds `PlayerPos::from_n` (`pos.rs`).  The source panics for `n > 3`; every
caller passes a value reduced mod 4, and we return `P0` on the unreachable
branch. -/
def PlayerPos.from_n : Nat → PlayerPos
  | 0 => .P0
  | 1 => .P1
  | 2 => .P2
  | 3 => .P3
  | _ => .P0

/-- Embeds `PlayerPos::team` (`pos.rs`). -/
def PlayerPos.team : PlayerPos → Team
  | .P0 => .T02
  | .P2 => .T02
  | .P1 => .T13
  | .P3 => .T13

/-- Embeds `PlayerPos::is_partner` (`pos.rs`). -/
def PlayerPos.is_partner (p other : PlayerPos) : Bool := p.team = other.team

/-- Embeds `PlayerPos::next` (`pos.rs`). -/
def PlayerPos.next : PlayerPos → PlayerPos
  | .P0 => .P1
  | .P1 => .P2
  | .P2 => .P3
  | .P3 => .P0

/-- Embeds `PlayerPos::next_n` (`pos.rs`): the seat `n` places further. -/
def PlayerPos.next_n (p : PlayerPos) (n : Nat) : PlayerPos :=
  if n = 0 then p else PlayerPos.from_n ((p.toNat + n) % 4)

/-- Embeds `PlayerPos::prev` (`pos.rs`). -/
def PlayerPos.prev : PlayerPos → PlayerPos
  | .P0 => .P3
  | .P1 => .P0
  | .P2 => .P1
  | .P3 => .P2

/-- Embeds `PlayerPos::distance_until` (`pos.rs`): the number of turns after `self`
needed to reach `other` (`(3 + other - self) % 4 + 1`). -/
def PlayerPos.distance_until (p other : PlayerPos) : Nat :=
  (3 + other.toNat - p.toNat) % 4 + 1

/-- Embeds `PlayerPos::until_n` (`pos.rs`): the `n` players starting from `self`
(the source returns an iterator; we return the list it yields). -/
def PlayerPos.until_n (p : PlayerPos) : Nat → List PlayerPos
  | 0 => []
  | n + 1 => p :: p.next.until_n n

/-- Embeds `PlayerPos::until` (`pos.rs`): players from `self` (included) to `other`
(excluded). -/
def PlayerPos.until (p other : PlayerPos) : List PlayerPos :=
  p.until_n (p.distance_until other)

/-! ## Scoring tables (`points.rs`) -/

/-- Embeds `points::usual_score`: the point value of a rank outside the trump suit. -/
def usual_score : Rank → Int
  | .Rank7 => 0
  | .Rank8 => 0
  | .Rank9 => 0
  | .RankJ => 2
  | .RankQ => 3
  | .RankK => 4
  | .RankX => 10
  | .RankA => 11

/-- Embeds `points::trump_score`: the point value of a rank in the trump suit. -/
def trump_score : Rank → Int
  | .RankJ => 20
  | .Rank9 => 14
  | r => usual_score r

/-- Embeds `points::usual_strength`: the trick-winning strength of a rank outside
the trump suit. -/
def usual_strength : Rank → Int
  | .Rank7 => 0
  | .Rank8 => 1
  | .Rank9 => 2
  | .RankJ => 3
  | .RankQ => 4
  | .RankK => 5
  | .RankX => 6
  | .RankA => 7

/-- Embeds `points::trump_strength`: the trick-winning strength of a rank in the
trump suit. -/
def trump_strength : Rank → Int
  | .Rank7 => 0
  | .Rank8 => 1
  | .RankQ => 2
  | .RankK => 3
  | .RankX => 4
  | .RankA => 5
  | .Rank9 => 6
  | .RankJ => 7

/-- Embeds `points::score`: the point value of a card given the trump suit. -/
def score (c : Card) (trump : Suit) : Int :=
  if c.suit = trump then trump_score c.rank else usual_score c.rank

/-- Embeds `points::strength`: the trick-winning strength of a card given the trump
suit; trump strengths are offset by 8 above all non-trump strengths. -/
def strength (c : Card) (trump : Suit) : Int :=
  if c.suit = trump then 8 + trump_strength c.rank else usual_strength c.rank

/-! ## The trick engine (`trick.rs`) -/

/-- The current cards on the table (`trick.rs`, `struct Trick`), with one
slot per seat holding the card played there (empty until played) — the
representation `game.rs` (`highest_trump`) and the spec's data model use. -/
structure Trick where
  cards : PlayerPos → Option Card
  first : PlayerPos
  winner : PlayerPos

/-- Embeds `Trick::new` (`trick.rs`): a new, empty trick. -/
def Trick.new (first : PlayerPos) : Trick :=
  { cards := fun _ => none, first := first, winner := first }

/-- The four seats, in numeric order. -/
def allPlayerPos : List PlayerPos := [.P0, .P1, .P2, .P3]

/-- Embeds `Trick::score` (`trick.rs`): the points value of the trick — the sum of
the point values of the cards played so far (unplayed slots contribute 0). -/
def Trick.score (t : Trick) (trump : Suit) : Int :=
  (allPlayerPos.map fun p =>
    match t.cards p with
    | some c => Libcoinche.score c trump
    | none => 0).sum

/-- Embeds `Trick::play_card` (`trick.rs`): records the card at the player's slot;
unless the player is the trick's first player, promotes them to `winner`
when their card's strength beats the current winner's card.  Returns whether
this completes the trick (`player == first.prev()`) together with the
updated trick.  The source reads the current winner's card by index and
would panic if it were absent; that slot is always filled in a well-formed
trick (the winner has already played), and we leave the winner unchanged on
the unreachable branch. -/
def Trick.play_card (t : Trick) (player : PlayerPos) (card : Card) (trump : Suit) :
    Bool × Trick :=
  let t1 : Trick := { t with cards := fun q => if q = player then some card else t.cards q }
  if player = t.first then (false, t1)
  else
    let t2 : Trick :=
      match t.cards t.winner with
      | some wc =>
          if strength card trump > strength wc trump then { t1 with winner := player } else t1
      | none => t1
    (decide (player = t.first.prev), t2)

/-- Modelled from the spec: `Trick::suit` is called by `can_play`
(`game.rs`) but absent from the provided `trick.rs` snapshot.  Spec §4.3:
"startingSuit(): the suit of the first player's card, or undefined if the
trick has not started." -/
def Trick.suit (t : Trick) : Option Suit :=
  (t.cards t.first).map Card.suit

/-! ## The auction state machine (`bid.rs`) -/

/-- Goal set by a contract (`bid.rs`, `enum Target`). -/
inductive Target
  | Contract80
  | Contract90
  | Contract100
  | Contract110
  | Contract120
  | Contract130
  | Contract140
  | Contract150
  | Contract160
  | ContractCapot
deriving DecidableEq, Repr

/-- Embeds `Target::score` (`bid.rs`): the score this target gives on success. -/
def Target.score : Target → Int
  | .Contract80 => 80
  | .Contract90 => 90
  | .Contract100 => 100
  | .Contract110 => 110
  | .Contract120 => 120
  | .Contract130 => 130
  | .Contract140 => 140
  | .Contract150 => 150
  | .Contract160 => 160
  | .ContractCapot => 250

/-- Embeds `Target::victory` (`bid.rs`): whether this target was reached. -/
def Target.victory (t : Target) (points : Int) (capot : Bool) : Bool :=
  match t with
  | .ContractCapot => capot
  | other => decide (points ≥ other.score)

/-- Contract taken by a team (`bid.rs`, `struct Contract`). -/
structure Contract where
  author : PlayerPos
  trump : Suit
  target : Target
  coinche_level : Int
deriving DecidableEq, Repr

/-- Embeds `Contract::new` (`bid.rs`): a fresh zero-coinche contract. -/
def Contract.new (author : PlayerPos) (trump : Suit) (target : Target) : Contract :=
  { author := author, trump := trump, target := target, coinche_level := 0 }

/-- Current state of an auction (`bid.rs`, `enum AuctionState`). -/
inductive AuctionState
  | Bidding
  | Coinching
  | Over
  | Cancelled
deriving DecidableEq, Repr

/-- Possible errors during an auction (`bid.rs`, `enum BidError`). -/
inductive BidError
  | AuctionClosed
  | TurnError
  | NonRaisedTarget
  | AuctionRunning
  | NoContract
  | OverCoinche
deriving DecidableEq, Repr

/-- The entire auction process (`bid.rs`, `struct Auction`).  `history` is
chronological: the last element is the current contract. -/
structure Auction where
  history : List Contract
  pass_count : Nat
  first : PlayerPos
  state : AuctionState
  players : PlayerPos → Hand

/-- Embeds `Auction::new` (`bid.rs`), with the randomly dealt hands
(`super::deal_hands()`, out of the engine's scope) taken as a parameter. -/
def Auction.new (first : PlayerPos) (hands : PlayerPos → Hand) : Auction :=
  { history := [], pass_count := 0, first := first, state := .Bidding, players := hands }

/-- Embeds `Auction::next_player` (`bid.rs`): the seat expected to act — the seat
after the last contract's author (or the auction's first seat when there is
no contract), advanced by the pass count. -/
def Auction.next_player (a : Auction) : PlayerPos :=
  (match a.history.getLast? with
   | some contract => contract.author.next
   | none => a.first).next_n a.pass_count

/-- Embeds `Auction::can_bid` (`bid.rs`): a bid is admissible only while `Bidding`
and only above the current contract's score. -/
def Auction.can_bid (a : Auction) (target : Target) : Except BidError Unit :=
  if a.state ≠ .Bidding then .error .AuctionClosed
  else
    match a.history.getLast? with
    | some contract =>
        if target.score ≤ contract.target.score then .error .NonRaisedTarget else .ok ()
    | none => .ok ()

/-- Embeds `Auction::bid` (`bid.rs`): offer a new, higher contract. -/
def Auction.bid (a : Auction) (pos : PlayerPos) (trump : Suit) (target : Target) :
    Except BidError (AuctionState × Auction) :=
  if pos ≠ a.next_player then .error .TurnError
  else
    match a.can_bid target with
    | .error e => .error e
    | .ok _ =>
        let st := if target = .ContractCapot then AuctionState.Coinching else a.state
        let a' : Auction :=
          { a with
              state := st
              history := a.history ++ [Contract.new pos trump target]
              pass_count := 0 }
        .ok (st, a')

/-- Embeds `Auction::current_contract` (`bid.rs`): the last offered contract. -/
def Auction.current_contract (a : Auction) : Option Contract :=
  a.history.getLast?

/-- Embeds `Auction::pass` (`bid.rs`): the current player passes.  Increments the
pass counter; with a contract, 3 accumulated passes end the auction (`Over`);
with no contract, 4 accumulated passes cancel it (`Cancelled`). -/
def Auction.pass (a : Auction) (pos : PlayerPos) :
    Except BidError (AuctionState × Auction) :=
  if pos ≠ a.next_player then .error .TurnError
  else
    let pc := a.pass_count + 1
    let st :=
      if ¬ a.history.isEmpty then
        if pc ≥ 3 then AuctionState.Over else a.state
      else if pc ≥ 4 then AuctionState.Cancelled
      else a.state
    .ok (st, { a with pass_count := pc, state := st })

/-- Embeds `Auction::coinche` (`bid.rs`): raise the current contract's coinche
level; at level 2 the auction is `Over`, otherwise it is `Coinching`. -/
def Auction.coinche (a : Auction) (pos : PlayerPos) :
    Except BidError (AuctionState × Auction) :=
  if pos ≠ a.next_player then .error .TurnError
  else
    match a.history.getLast? with
    | none => .error .NoContract
    | some contract =>
        if contract.coinche_level > 1 then .error .OverCoinche
        else
          let c' : Contract := { contract with coinche_level := contract.coinche_level + 1 }
          let st := if c'.coinche_level = 2 then AuctionState.Over else AuctionState.Coinching
          .ok (st, { a with history := a.history.dropLast ++ [c'], state := st })

/-! ## The play/round engine (`game.rs`) -/

/-- Errors that can occur during play (`game.rs`, `enum PlayError`). -/
inductive PlayError
  | TurnError
  | CardMissing
  | IncorrectSuit
  | InvalidPiss
  | NonRaisedTrump
  | NoLastTrick
deriving DecidableEq, Repr

/-- Result of a game (`game.rs`, `enum GameResult`).  `points` and `scores`
are per-team, as the source's `[i32; 2]` arrays indexed by `team as usize`. -/
inductive GameResult
  | Nothing
  | GameOver (points : Team → Int) (winners : Team) (scores : Team → Int)

/-- Result of a trick (`game.rs`, `enum TrickResult`). -/
inductive TrickResult
  | Nothing
  | TrickOver (winner : PlayerPos) (result : GameResult)

/-- State of a coinche game ready to play a card (`game.rs`,
`struct GameState`).  `players` and `points` are the source's arrays indexed
by `player as usize` / `team as usize`; `tricks` is chronological, its last
element being the current trick. -/
structure GameState where
  players : PlayerPos → Hand
  current : PlayerPos
  contract : Contract
  points : Team → Int
  tricks : List Trick

/-- Embeds `GameState::new` (`game.rs`). -/
def GameState.new (first : PlayerPos) (hands : PlayerPos → Hand) (contract : Contract) :
    GameState :=
  { players := hands
    current := first
    contract := contract
    tricks := [Trick.new first]
    points := fun _ => 0 }

/-- Embeds `game::has_higher` (`game.rs`): does the hand hold a card of the trump
suit stronger (in trump order) than the given strength? -/
def has_higher (hand : Hand) (trump : Suit) (strength : Int) : Bool :=
  (List.range 8).any fun ri =>
    let rank := Rank.from_n ri
    trump_strength rank > strength && hand.has (Card.new trump rank)

/-- Embeds `game::highest_trump` (`game.rs`): the highest trump strength among the
cards played by the seats from the trick's first player up to (excluding)
`player`, or `-1` if none of them played trump.  The source unwraps each
visited slot and would panic on an empty one; those seats have all played in
a well-formed trick, and an empty slot is skipped here. -/
def highest_trump (trick : Trick) (trump : Suit) (player : PlayerPos) : Int :=
  (trick.first.until player).foldl
    (fun highest p =>
      match trick.cards p with
      | some c =>
          if c.suit = trump then
            if trump_strength c.rank > highest then trump_strength c.rank else highest
          else highest
      | none => highest)
    (-1)

/-- Embeds `game::can_play` (`game.rs`): is the move legal?  The source unwraps
`trick.suit()` and would panic on an unstarted trick; a non-first player
only acts once the trick has started, and we return `.ok` on the
unreachable branch. -/
def can_play (p : PlayerPos) (card : Card) (hand : Hand) (trick : Trick) (trump : Suit) :
    Except PlayError Unit :=
  if ¬ hand.has card then .error .CardMissing
  else if p = trick.first then .ok ()
  else
    match trick.suit with
    | none => .ok ()
    | some starting_suit =>
        let card_suit := card.suit
        let early : Option PlayError :=
          if card_suit ≠ starting_suit then
            if hand.has_any starting_suit then some .IncorrectSuit
            else if card_suit ≠ trump ∧ ¬ p.is_partner trick.winner ∧ hand.has_any trump then
              some .InvalidPiss
            else none
          else none
        match early with
        | some e => .error e
        | none =>
            if card_suit = trump ∧
                trump_strength card.rank < highest_trump trick trump p ∧
                has_higher hand card_suit (highest_trump trick trump p) then
              .error .NonRaisedTrump
            else .ok ()

/-- Embeds `GameState::is_over` (`game.rs`): the round holds 8 tricks. -/
def GameState.is_over (g : GameState) : Bool :=
  g.tricks.length = 8

/-- Embeds `GameState::is_capot` (`game.rs`): every trick was won by the team. -/
def GameState.is_capot (g : GameState) (team : Team) : Bool :=
  g.tricks.all fun t => t.winner.team = team

/-- Embeds `GameState::get_game_result` (`game.rs`): the final result once the
round is over — the taking team wins iff its target was reached, scoring
the target's score, and otherwise the opponents score a flat 160. -/
def GameState.get_game_result (g : GameState) : GameResult :=
  if ¬ g.is_over then .Nothing
  else
    let taking_team := g.contract.author.team
    let taking_points := g.points taking_team
    let capot := g.is_capot taking_team
    let victory := g.contract.target.victory taking_points capot
    let winners := if victory then taking_team else taking_team.opponent
    let scores : Team → Int := fun tm =>
      if tm = winners then (if victory then g.contract.target.score else 160) else 0
    .GameOver g.points winners scores

/-- Embeds `GameState::play_card` (`game.rs`): try to play a card.  Checks the turn
and the move's legality, records the card in the current trick and, when the
trick completes, scores it for the winning team (plus the 10-point last-trick
bonus on the 8th trick) and passes the turn to the winner; otherwise passes
the turn to the next seat.  Note: this snapshot never removes the played
card from the player's hand. -/
def GameState.play_card (g : GameState) (player : PlayerPos) (card : Card) :
    Except PlayError (TrickResult × GameState) :=
  if g.current ≠ player then .error .TurnError
  else
    match g.tricks.getLast? with
    | none => .error .NoLastTrick
    | some t =>
        match can_play player card (g.players player) t g.contract.trump with
        | .error e => .error e
        | .ok _ =>
            let trump := g.contract.trump
            let played := t.play_card player card trump
            let t' := played.2
            if played.1 then
              let winner := t'.winner
              let trick_score := t'.score trump
              let pts1 : Team → Int := fun tm =>
                if tm = winner.team then g.points tm + trick_score else g.points tm
              if g.tricks.length = 8 then
                let pts2 : Team → Int := fun tm =>
                  if tm = winner.team then pts1 tm + 10 else pts1 tm
                let g' : GameState :=
                  { g with
                      points := pts2
                      tricks := g.tricks.dropLast ++ [t']
                      current := winner }
                .ok (.TrickOver winner g'.get_game_result, g')
              else
                let g' : GameState :=
                  { g with
                      points := pts1
                      tricks := (g.tricks.dropLast ++ [t']) ++ [Trick.new winner]
                      current := winner }
                .ok (.TrickOver winner g'.get_game_result, g')
            else
              .ok (.Nothing,
                { g with
                    tricks := g.tricks.dropLast ++ [t']
                    current := g.current.next })

/-- Embeds `GameState::next_player` (`game.rs`). -/
def GameState.next_player (g : GameState) : PlayerPos :=
  g.current

/-! ## Auxiliary notions for the theorems -/

/-- Iterate `Auction::pass` by the expected seat (`next_player`) `n` times.
A pass by `next_player` always satisfies the turn guard, so this models "n
consecutive passes". -/
def Auction.passN : Auction → Nat → Option Auction
  | a, 0 => some a
  | a, n + 1 =>
      match a.pass a.next_player with
      | .ok r => r.2.passN n
      | .error _ => none

/-- Auctions reachable from a freshly created auction by successful `bid`,
`pass` and `coinche` calls. -/
inductive Auction.Reachable : Auction → Prop
  | new (first : PlayerPos) (hands : PlayerPos → Hand) :
      Auction.Reachable (Auction.new first hands)
  | bid (a : Auction) (p : PlayerPos) (tr : Suit) (tg : Target)
      (s : AuctionState) (a' : Auction) :
      Auction.Reachable a → a.bid p tr tg = .ok (s, a') → Auction.Reachable a'
  | pass (a : Auction) (p : PlayerPos) (s : AuctionState) (a' : Auction) :
      Auction.Reachable a → a.pass p = .ok (s, a') → Auction.Reachable a'
  | coinche (a : Auction) (p : PlayerPos) (s : AuctionState) (a' : Auction) :
      Auction.Reachable a → a.coinche p = .ok (s, a') → Auction.Reachable a'

/-! ### Concrete states used by witnesses and counterexamples -/

/-- Four empty hands (the engine never reads the hands during an auction). -/
def handsW : PlayerPos → Hand := fun _ => Hand.new

/-- The auction obtained from `Auction.new P0` after the four seats passed:
no contract, pass counter 4, state `Cancelled`. -/
def aCancelled : Auction :=
  { history := [], pass_count := 4, first := .P0, state := .Cancelled, players := handsW }

/-- The auction obtained from `Auction.new P0` after `P0` bid (Heart, 80). -/
def aBid : Auction :=
  { history := [Contract.new .P0 .Heart .Contract80], pass_count := 0, first := .P0,
    state := .Bidding, players := handsW }

/-- The auction `aBid` after `P1` coinched once: level 1, state `Coinching`. -/
def aCoinche1 : Auction :=
  { aBid with
      history := [{ Contract.new .P0 .Heart .Contract80 with coinche_level := 1 }]
      state := .Coinching }

/-- The auction `aCoinche1` after `P1` coinched again: level 2, state `Over`. -/
def aCoinche2 : Auction :=
  { aBid with
      history := [{ Contract.new .P0 .Heart .Contract80 with coinche_level := 2 }]
      state := .Over }

/-- The card `P0` plays in the `C1` scenario: the 7 of clubs. -/
def cC1 : Card := Card.new .Club .Rank7

/-- Hand of `P0` in the `C1` scenario: 7 of clubs and 8 of hearts. -/
def handC1 : Hand := (Hand.new.add (Card.new .Club .Rank7)).add (Card.new .Heart .Rank8)

/-- A fresh game: `P0` to open the first trick, trump Heart, target 80. -/
def gC1 : GameState :=
  { players := fun p => if p = .P0 then handC1 else Hand.new
    current := .P0
    contract := { author := .P0, trump := .Heart, target := .Contract80, coinche_level := 0 }
    points := fun _ => 0
    tricks := [Trick.new .P0] }

/-- The first trick of `gC1` after `P0` played the 7 of clubs. -/
def tC1 : Trick :=
  { cards := fun q => if q = PlayerPos.P0 then some cC1 else none
    first := .P0
    winner := .P0 }

/-- The game `gC1` after `P0` successfully played the 7 of clubs. -/
def gC1' : GameState := { gC1 with tricks := [tC1], current := .P1 }


/-- A one-card trick: `P0` led the 7 of hearts. -/
def tSuitW : Trick :=
  { cards := fun q => if q = PlayerPos.P0 then some (Card.new .Heart .Rank7) else none
    first := .P0
    winner := .P0 }

/-- A hand holding the ace of hearts and the 7 of spades. -/
def handSuitW : Hand := (Hand.new.add (Card.new .Heart .RankA)).add (Card.new .Spade .Rank7)

/-- A hand holding only the 7 of spades. -/
def handTrumpW : Hand := Hand.new.add (Card.new .Spade .Rank7)

/-- The trick of the C5 counterexample: `P0` led the 7 of hearts and `P1`
trumped with the 9 of spades (trump: Spade). -/
def tC5 : Trick :=
  { cards := fun q =>
      if q = PlayerPos.P0 then some (Card.new .Heart .Rank7)
      else if q = PlayerPos.P1 then some (Card.new .Spade .Rank9)
      else none
    first := .P0
    winner := .P1 }

/-- The hand of the C5 counterexample: 7 and jack of spades, ace of hearts. -/
def handC5 : Hand :=
  ((Hand.new.add (Card.new .Spade .Rank7)).add (Card.new .Spade .RankJ)).add
    (Card.new .Heart .RankA)

/-- The card played in the C5 counterexample: the 7 of spades (a low trump). -/
def cC5 : Card := Card.new .Spade .Rank7

/-- A finished round: 8 tricks all won by `P0`, contract (P0, Heart, 80),
90 points for team `T02` and 60 for `T13`. -/
def gOver : GameState :=
  { players := handsW
    current := .P0
    contract := { author := .P0, trump := .Heart, target := .Contract80, coinche_level := 0 }
    points := fun tm => if tm = Team.T02 then 90 else 60
    tricks := List.replicate 8 (Trick.new .P0) }

/-- The trick of the C7 scenario: `P0` led the 7 of clubs, `P1` followed
with the queen of clubs, `P2` trumped with the queen of hearts. -/
def tC7 : Trick :=
  { cards := fun q =>
      if q = PlayerPos.P0 then some (Card.new .Club .Rank7)
      else if q = PlayerPos.P1 then some (Card.new .Club .RankQ)
      else if q = PlayerPos.P2 then some (Card.new .Heart .RankQ)
      else none
    first := .P0
    winner := .P2 }

/-- Hand of `P3` in the C7 scenario: 7 and jack of hearts. -/
def handC7 : Hand := (Hand.new.add (Card.new .Heart .Rank7)).add (Card.new .Heart .RankJ)

/-- The C7 scenario: `P3` is about to complete the first trick. -/
def gC7 : GameState :=
  { players := fun q => if q = PlayerPos.P3 then handC7 else Hand.new
    current := .P3
    contract := { author := .P0, trump := .Heart, target := .Contract80, coinche_level := 0 }
    points := fun _ => 0
    tricks := [tC7] }

/-- The trick `tC7` after `P3` overtrumped with the jack of hearts. -/
def tC7sq : Trick :=
  { cards := fun q => if q = PlayerPos.P3 then some (Card.new .Heart .RankJ) else tC7.cards q
    first := .P0
    winner := .P3 }

/-- The game `gC7` after the trick completed: 26 points to team `T13`, a new
trick opened by the winner `P3`. -/
def gC7sq : GameState :=
  { gC7 with
      points := fun tm => if tm = Team.T13 then 26 else 0
      tricks := [tC7sq, Trick.new .P3]
      current := .P3 }

/-! ## Helper lemmas -/

theorem list_getLast_snoc {α : Type} (l : List α) (x : α) :
    (l ++ [x]).getLast? = some x := by
  rw [List.getLast?_append_cons]
  rfl

theorem usual_strength_lt_eight (r : Rank) : usual_strength r < 8 := by
  cases r <;> decide

theorem trump_strength_nonneg (r : Rank) : 0 ≤ trump_strength r := by
  cases r <;> decide

theorem list_ne_nil_of_getLast {α : Type} (l : List α) (x : α)
    (h : l.getLast? = some x) : l ≠ [] := by
  intro he
  rw [he] at h
  cases h

theorem length_dropLast_snoc {α : Type} (l : List α) (x : α) (h : l ≠ []) :
    (l.dropLast ++ [x]).length = l.length := by
  rw [List.length_append, List.length_dropLast]
  have := List.length_pos.mpr h
  simp
  omega

/-- Characterizes `Target::victory` as a proposition: victory holds iff the target is
Capot and capot was achieved, or the target is a point threshold that the
taken points reach. -/
theorem victory_iff (t : Target) (pts : Int) (cap : Bool) :
    t.victory pts cap = true ↔
      ((t = .ContractCapot ∧ cap = true) ∨ (t ≠ .ContractCapot ∧ t.score ≤ pts)) := by
  cases t <;> simp [Target.victory, Target.score, ge_iff_le]

/-- A pass by the expected seat always succeeds, increments the pass counter
and updates the state by the source's rule. -/
theorem pass_next_ok (a : Auction) :
    a.pass a.next_player =
      .ok
        (if ¬ a.history.isEmpty then
           if a.pass_count + 1 ≥ 3 then AuctionState.Over else a.state
         else if a.pass_count + 1 ≥ 4 then AuctionState.Cancelled else a.state,
         { a with
             pass_count := a.pass_count + 1
             state :=
               if ¬ a.history.isEmpty then
                 if a.pass_count + 1 ≥ 3 then AuctionState.Over else a.state
               else if a.pass_count + 1 ≥ 4 then AuctionState.Cancelled else a.state }) := by
  simp [Auction.pass]

/-- Fields of the auction after a successful pass. -/
theorem pass_fields (a : Auction) (p : PlayerPos) (s : AuctionState) (a' : Auction)
    (h : a.pass p = .ok (s, a')) :
    a'.history = a.history ∧ a'.pass_count = a.pass_count + 1 ∧
    a'.state =
      (if ¬ a.history.isEmpty then
         if a.pass_count + 1 ≥ 3 then AuctionState.Over else a.state
       else if a.pass_count + 1 ≥ 4 then AuctionState.Cancelled else a.state) := by
  unfold Auction.pass at h
  split at h
  · cases h
  · simp only [Except.ok.injEq, Prod.mk.injEq] at h
    obtain ⟨-, rfl⟩ := h
    exact ⟨rfl, rfl, rfl⟩

/-- Making `n + 1` consecutive passes on an auction holding a contract ends in
`Over` as soon as the accumulated pass count reaches 3. -/
theorem passN_over (n : Nat) :
    ∀ (a b : Auction), ¬ a.history.isEmpty → a.passN (n + 1) = some b →
      3 ≤ a.pass_count + (n + 1) → b.state = .Over := by
  induction n with
  | zero =>
      intro a b hh h hc
      rw [Auction.passN, pass_next_ok] at h
      simp only [Auction.passN, Option.some.injEq] at h
      subst h
      simp [hh, hc]
  | succ n ih =>
      intro a b hh h hc
      rw [Auction.passN, pass_next_ok] at h
      exact ih
        { a with
            pass_count := a.pass_count + 1
            state :=
              if ¬ a.history.isEmpty then
                if a.pass_count + 1 ≥ 3 then AuctionState.Over else a.state
              else if a.pass_count + 1 ≥ 4 then AuctionState.Cancelled else a.state }
        b hh h (by show 3 ≤ a.pass_count + 1 + (n + 1); omega)

/-- Making `n + 1` consecutive passes on an auction without any contract ends in
`Cancelled` as soon as the accumulated pass count reaches 4. -/
theorem passN_cancelled (n : Nat) :
    ∀ (a b : Auction), a.history.isEmpty → a.passN (n + 1) = some b →
      4 ≤ a.pass_count + (n + 1) → b.state = .Cancelled := by
  induction n with
  | zero =>
      intro a b hh h hc
      rw [Auction.passN, pass_next_ok] at h
      simp only [Auction.passN, Option.some.injEq] at h
      subst h
      simp [hh, hc]
  | succ n ih =>
      intro a b hh h hc
      rw [Auction.passN, pass_next_ok] at h
      exact ih
        { a with
            pass_count := a.pass_count + 1
            state :=
              if ¬ a.history.isEmpty then
                if a.pass_count + 1 ≥ 3 then AuctionState.Over else a.state
              else if a.pass_count + 1 ≥ 4 then AuctionState.Cancelled else a.state }
        b hh h (by show 4 ≤ a.pass_count + 1 + (n + 1); omega)

/-! ## C9 — trump cards always beat non-trump cards -/

/-- C9: for every trump suit `t`, a card of suit `t` has strictly greater
strength than any card of another suit: trump strengths are offset by 8
above the whole non-trump range. -/
theorem C9_trump_beats_non_trump (t : Suit) (c d : Card)
    (hc : c.suit = t) (hd : d.suit ≠ t) :
    strength d t < strength c t := by
  unfold strength
  rw [if_pos hc, if_neg hd]
  have h1 := usual_strength_lt_eight d.rank
  have h2 := trump_strength_nonneg c.rank
  omega

/-- Witness for C9 at a concrete input: the 7 of hearts (trump) beats the
ace of spades. -/
theorem C9_trump_beats_non_trump_witness :
    strength (Card.new .Spade .RankA) .Heart < strength (Card.new .Heart .Rank7) .Heart :=
  C9_trump_beats_non_trump .Heart (Card.new .Heart .Rank7) (Card.new .Spade .RankA)
    rfl (by decide)

/-! ## C3 — the auction's turn-order rule -/

/-- C3: the seat allowed to act is exactly `base.next_n(passCount)`, where
`base` is the seat after the last contract's author, or the auction's first
seat when no contract exists; `bid`, `pass` and `coinche` by any other seat
fail with `TurnError`. -/
theorem C3_turn_order (a : Auction) (p : PlayerPos) :
    a.next_player =
      (match a.history.getLast? with
       | some contract => contract.author.next
       | none => a.first).next_n a.pass_count ∧
    (p ≠ a.next_player →
      (∀ trump target, a.bid p trump target = .error .TurnError) ∧
      a.pass p = .error .TurnError ∧
      a.coinche p = .error .TurnError) := by
  refine ⟨rfl, fun hp => ⟨fun trump target => ?_, ?_, ?_⟩⟩
  · unfold Auction.bid
    rw [if_pos hp]
  · unfold Auction.pass
    rw [if_pos hp]
  · unfold Auction.coinche
    rw [if_pos hp]

/-- Witness for C3 at a concrete input: on a fresh auction starting at `P0`,
`P1` cannot pass. -/
theorem C3_turn_order_witness :
    (Auction.new .P0 handsW).pass .P1 = .error .TurnError :=
  ((C3_turn_order (Auction.new .P0 handsW) .P1).2 (by decide)).2.1

/-! ## C2 — `Over` and `Cancelled` are not terminal for `pass`/`coinche` -/

/-- C2 counterexample: `aCancelled` is reached from a fresh auction by four
passes and is in state `Cancelled`, yet a further `pass` by the expected
seat `P0` succeeds (returns `Ok`) and increments the pass counter — the
claim says every pass in a terminal state returns an error and leaves the
pass counter unchanged. -/
theorem C2_counterexample_pass_in_cancelled :
    (Auction.new .P0 handsW).passN 4 = some aCancelled ∧
    aCancelled.state = .Cancelled ∧
    aCancelled.pass .P0 = .ok (.Cancelled, { aCancelled with pass_count := 5 }) :=
  ⟨rfl, rfl, rfl⟩

/-- C2 amended: in state `Over` or `Cancelled`, every `bid` fails — with
`AuctionClosed` for the expected seat and `TurnError` for the three others —
and, errors being returned before any mutation, leaves the auction's state,
history and pass counter unchanged; `pass` and `coinche` perform no
state check (see the counterexample). -/
theorem C2_amended_bid_closed (a : Auction) (pos : PlayerPos) (trump : Suit)
    (target : Target) (h : a.state = .Over ∨ a.state = .Cancelled) :
    a.bid pos trump target =
      .error (if pos = a.next_player then BidError.AuctionClosed else BidError.TurnError) := by
  have hb : a.state ≠ .Bidding := by rcases h with h | h <;> simp [h]
  unfold Auction.bid Auction.can_bid
  by_cases hp : pos = a.next_player
  · simp [hp, hb]
  · simp [hp]

/-- Witness for the amended C2: bidding on `aCancelled` as `P0` (the
expected seat) fails with `AuctionClosed`. -/
theorem C2_amended_bid_closed_witness :
    aCancelled.bid .P0 .Heart .Contract80 = .error .AuctionClosed :=
  C2_amended_bid_closed aCancelled .P0 .Heart .Contract80 (Or.inr rfl)

/-! ## C8 — pass counting -/

/-- C8: a pass by the wrong seat fails with `TurnError`; a pass by the
expected seat increments the pass counter and moves the state to `Over` when
a contract exists and the counter reaches 3, to `Cancelled` when no contract
exists and the counter reaches 4, and leaves it unchanged otherwise; hence 3
consecutive passes on an auction holding a contract end in `Over`, and 4
consecutive passes on an auction with no contract end in `Cancelled`. -/
theorem C8_pass_counting (a : Auction) (p : PlayerPos) :
    (p ≠ a.next_player → a.pass p = .error .TurnError) ∧
    (p = a.next_player →
      a.pass p =
        .ok
          (if ¬ a.history.isEmpty then
             if a.pass_count + 1 ≥ 3 then AuctionState.Over else a.state
           else if a.pass_count + 1 ≥ 4 then AuctionState.Cancelled else a.state,
           { a with
               pass_count := a.pass_count + 1
               state :=
                 if ¬ a.history.isEmpty then
                   if a.pass_count + 1 ≥ 3 then AuctionState.Over else a.state
                 else if a.pass_count + 1 ≥ 4 then AuctionState.Cancelled else a.state })) ∧
    (¬ a.history.isEmpty → ∀ b, a.passN 3 = some b → b.state = .Over) ∧
    (a.history.isEmpty → ∀ b, a.passN 4 = some b → b.state = .Cancelled) := by
  refine ⟨?_, ?_, ?_, ?_⟩
  · intro hp
    unfold Auction.pass
    rw [if_pos hp]
  · intro hp
    subst hp
    exact pass_next_ok a
  · intro hh b hb
    exact passN_over 2 a b hh hb (by omega)
  · intro hh b hb
    exact passN_cancelled 3 a b hh hb (by omega)

/-- Witness for C8 at a concrete input: the four passes from a fresh auction
reach `Cancelled`. -/
theorem C8_pass_counting_witness :
    aCancelled.state = .Cancelled :=
  (C8_pass_counting (Auction.new .P0 handsW) .P0).2.2.2 rfl aCancelled rfl

/-! ## C10 — a successful coinche is a frame-preserving step -/

/-- C10: a successful `coinche` changes only the current contract's coinche
level and the auction state: the pass counter, history length, contract
author/trump/target, first seat and dealt hands are unchanged, so
`next_player` returns the same seat; and on a reachable auction the seat
that just coinched can immediately coinche again, raising the level to 2 and
ending the auction without any other seat acting. -/
theorem C10_coinche_frame :
    (∀ (a : Auction) (p : PlayerPos) (s : AuctionState) (a' : Auction),
        a.coinche p = .ok (s, a') →
          a'.pass_count = a.pass_count ∧
          a'.history.length = a.history.length ∧
          a'.first = a.first ∧
          a'.players = a.players ∧
          (∀ c c', a.history.getLast? = some c → a'.history.getLast? = some c' →
              c'.author = c.author ∧ c'.trump = c.trump ∧ c'.target = c.target ∧
              c'.coinche_level = c.coinche_level + 1) ∧
          a'.next_player = a.next_player) ∧
    (∃ (a a1 a2 : Auction) (q : PlayerPos),
        a.Reachable ∧
        a.coinche q = .ok (.Coinching, a1) ∧
        a1.next_player = q ∧
        a1.coinche q = .ok (.Over, a2) ∧
        (∃ c, a2.history.getLast? = some c ∧ c.coinche_level = 2) ∧
        a2.state = .Over) := by
  constructor
  · intro a p s a' h
    unfold Auction.coinche at h
    split at h
    · cases h
    · cases hl : a.history.getLast? with
      | none => rw [hl] at h; cases h
      | some c =>
          rw [hl] at h
          change (if c.coinche_level > 1 then Except.error BidError.OverCoinche
            else Except.ok
              (if c.coinche_level + 1 = 2 then AuctionState.Over else AuctionState.Coinching,
               { a with
                   history := a.history.dropLast ++
                     [{ c with coinche_level := c.coinche_level + 1 }]
                   state :=
                     if c.coinche_level + 1 = 2 then AuctionState.Over
                     else AuctionState.Coinching })) = Except.ok (s, a') at h
          by_cases hc2 : c.coinche_level > 1
          · rw [if_pos hc2] at h; cases h
          · rw [if_neg hc2] at h
            simp only [Except.ok.injEq, Prod.mk.injEq] at h
            obtain ⟨-, rfl⟩ := h
            have hne : a.history ≠ [] := by
              intro he
              rw [he] at hl
              cases hl
            have hlen : 0 < a.history.length := List.length_pos.mpr hne
            refine ⟨rfl, ?_, rfl, rfl, ?_, ?_⟩
            · show (a.history.dropLast ++ [_]).length = a.history.length
              rw [List.length_append, List.length_dropLast]
              simp
              omega
            · intro c0 c0' h0 h0'
              injection h0 with h0
              subst h0
              have h1 : (a.history.dropLast ++
                  [{ c with coinche_level := c.coinche_level + 1 }]).getLast? =
                  some c0' := h0'
              rw [list_getLast_snoc] at h1
              injection h1 with h1
              subst h1
              exact ⟨rfl, rfl, rfl, rfl⟩
            · have heq : (a.history.dropLast ++
                  [{ c with coinche_level := c.coinche_level + 1 }]).getLast? =
                  some { c with coinche_level := c.coinche_level + 1 } :=
                list_getLast_snoc _ _
              show Auction.next_player _ = Auction.next_player a
              unfold Auction.next_player
              rw [show ({ a with
                    history := a.history.dropLast ++
                      [{ c with coinche_level := c.coinche_level + 1 }]
                    state :=
                      if c.coinche_level + 1 = 2 then AuctionState.Over
                      else AuctionState.Coinching } : Auction).history.getLast? =
                  some { c with coinche_level := c.coinche_level + 1 } from heq, hl]
  · refine ⟨aBid, aCoinche1, aCoinche2, .P1, ?_, rfl, rfl, rfl, ⟨_, rfl, rfl⟩, rfl⟩
    exact Auction.Reachable.bid (Auction.new .P0 handsW) .P0 .Heart .Contract80
      .Bidding aBid (Auction.Reachable.new .P0 handsW) rfl

/-- Witness for the universally quantified part of C10 at a concrete input:
the first coinche of the double-coinche scenario preserves the pass counter
and the next player. -/
theorem C10_coinche_frame_witness :
    aCoinche1.pass_count = aBid.pass_count ∧ aCoinche1.next_player = aBid.next_player :=
  ⟨(C10_coinche_frame.1 aBid .P1 .Coinching aCoinche1 rfl).1,
   (C10_coinche_frame.1 aBid .P1 .Coinching aCoinche1 rfl).2.2.2.2.2⟩


/-! ## C4 — suit-following and forced trump -/

/-- C4: for a non-first seat playing a card it holds into a started trick,
if the card's suit differs from the starting suit while the hand holds a
card of the starting suit the play fails with `IncorrectSuit`; and, the hand
holding no card of the starting suit, a card off both the starting suit and
trump succeeds exactly when the current trick winner is the player's partner
or the hand holds no trump at all, failing with `InvalidPiss` otherwise. -/
theorem C4_suit_following (p : PlayerPos) (card : Card) (hand : Hand) (trick : Trick)
    (trump s : Suit)
    (hmem : hand.has card = true)
    (hfirst : p ≠ trick.first)
    (hstart : trick.suit = some s) :
    (card.suit ≠ s ∧ hand.has_any s = true →
      can_play p card hand trick trump = .error .IncorrectSuit) ∧
    (card.suit ≠ s ∧ card.suit ≠ trump ∧ hand.has_any s = false →
      (can_play p card hand trick trump = .ok () ↔
        (p.is_partner trick.winner = true ∨ hand.has_any trump = false)) ∧
      (¬ (p.is_partner trick.winner = true ∨ hand.has_any trump = false) →
        can_play p card hand trick trump = .error .InvalidPiss)) := by
  constructor
  · rintro ⟨h1, h2⟩
    simp [can_play, hstart, hmem, hfirst, h1, h2]
  · rintro ⟨h1, h2, h3⟩
    by_cases hpw : p.is_partner trick.winner = true
    · constructor
      · simp [can_play, hstart, hmem, hfirst, h1, h2, h3, hpw]
      · intro hcon
        exact absurd (Or.inl hpw) hcon
    · by_cases hht : hand.has_any trump = true
      · constructor
        · simp [can_play, hstart, hmem, hfirst, h1, h2, h3, hpw, hht]
        · intro _
          simp [can_play, hstart, hmem, hfirst, h1, h2, h3, hpw, hht]
      · constructor
        · simp [can_play, hstart, hmem, hfirst, h1, h2, h3, hpw, hht]
        · intro hcon
          exact absurd (Or.inr (by simpa using hht)) hcon

/-- Witness for C4 at a concrete input: `P1`, holding the ace of hearts,
may not discard the 7 of spades on a heart lead (trump: Club). -/
theorem C4_suit_following_witness :
    can_play .P1 (Card.new .Spade .Rank7) handSuitW tSuitW .Club = .error .IncorrectSuit :=
  (C4_suit_following .P1 (Card.new .Spade .Rank7) handSuitW tSuitW .Club .Heart
    (by decide) (by decide) rfl).1 ⟨by decide, by decide⟩

/-! ## C5 — the overtrump rule -/

/-- C5 counterexample: with trump Spade, `P0` led the 7 of hearts and `P1`
trumped with the 9 of spades; `P2`, holding the 7 and jack of spades and the
ace of hearts, plays the 7 of spades.  The claim's condition for
`NonRaisedTrump` holds (the 7 is below the 9 and the hand holds the higher
jack), yet the play fails with `IncorrectSuit` instead, because `P2` still
holds a heart and the suit-following check comes first: the claimed "exactly
when" is false. -/
theorem C5_counterexample_incorrect_suit_first :
    handC5.has cC5 = true ∧
    PlayerPos.P2 ≠ tC5.first ∧
    tC5.suit = some .Heart ∧
    cC5.suit = .Spade ∧
    trump_strength cC5.rank < highest_trump tC5 .Spade .P2 ∧
    has_higher handC5 .Spade (highest_trump tC5 .Spade .P2) = true ∧
    can_play .P2 cC5 handC5 tC5 .Spade = .error .IncorrectSuit :=
  ⟨by decide, by decide, rfl, rfl, by decide, by decide, rfl⟩

/-- C5 amended: for a non-first seat playing a held trump card that is not
rejected by the suit-following rule (the card follows the starting suit, or
the hand holds no card of the starting suit), the play fails with
`NonRaisedTrump` exactly when the card's trump strength is below the highest
trump played so far by the seats before it and the hand holds a trump above
that strength; in particular, when no trump has been played yet
(`highest_trump = -1`), the play is legal. -/
theorem C5_amended_overtrump (p : PlayerPos) (card : Card) (hand : Hand) (trick : Trick)
    (trump s : Suit)
    (hmem : hand.has card = true)
    (hfirst : p ≠ trick.first)
    (hstart : trick.suit = some s)
    (htrump : card.suit = trump)
    (hns : card.suit = s ∨ hand.has_any s = false) :
    (can_play p card hand trick trump = .error .NonRaisedTrump ↔
      (trump_strength card.rank < highest_trump trick trump p ∧
        has_higher hand trump (highest_trump trick trump p) = true)) ∧
    (highest_trump trick trump p = -1 → can_play p card hand trick trump = .ok ()) := by
  have hred : can_play p card hand trick trump =
      (if trump_strength card.rank < highest_trump trick trump p ∧
          has_higher hand trump (highest_trump trick trump p) = true
       then .error .NonRaisedTrump else .ok ()) := by
    rcases hns with hss | hna
    · have hst : s = trump := by rw [← hss, htrump]
      subst hst
      simp [can_play, hstart, hmem, hfirst, hss, htrump]
    · by_cases hss : card.suit = s
      · have hst : s = trump := by rw [← hss, htrump]
        subst hst
        simp [can_play, hstart, hmem, hfirst, hss, htrump]
      · simp [can_play, hstart, hmem, hfirst, hss, hna, htrump]
  constructor
  · rw [hred]
    by_cases hcond : trump_strength card.rank < highest_trump trick trump p ∧
        has_higher hand trump (highest_trump trick trump p) = true
    · simp [hcond]
    · simp [hcond]
  · intro hhigh
    rw [hred]
    have hnlt : ¬ trump_strength card.rank < highest_trump trick trump p := by
      rw [hhigh]
      have := trump_strength_nonneg card.rank
      omega
    simp [hnlt]

/-- Witness for the amended C5 at a concrete input: on a heart lead with no
trump played yet, the 7 of spades (trump, the only spade held) is legal. -/
theorem C5_amended_overtrump_witness :
    can_play .P1 (Card.new .Spade .Rank7) handTrumpW tSuitW .Spade = .ok () :=
  (C5_amended_overtrump .P1 (Card.new .Spade .Rank7) handTrumpW tSuitW .Spade .Heart
    (by decide) (by decide) rfl rfl (Or.inr (by decide))).2 rfl

/-! ## C6 — round completion and scoring -/

/-- C6: once the 8 tricks are in, the taking team (the contract author's
team) wins iff its target is Capot and it won every trick, or its target is
a point threshold reached by its cumulative points; on victory it scores the
target's score (its threshold, or 250 for Capot) and the opponents 0; on
defeat the opponents score a flat 160 and the taking team 0. -/
theorem C6_round_scoring (g : GameState) (h8 : g.tricks.length = 8) :
    (((g.contract.target = Target.ContractCapot ∧ g.is_capot g.contract.author.team = true) ∨
      (g.contract.target ≠ Target.ContractCapot ∧
        g.contract.target.score ≤ g.points g.contract.author.team)) →
      g.get_game_result =
        .GameOver g.points g.contract.author.team
          (fun tm => if tm = g.contract.author.team then g.contract.target.score else 0)) ∧
    (¬ ((g.contract.target = Target.ContractCapot ∧ g.is_capot g.contract.author.team = true) ∨
      (g.contract.target ≠ Target.ContractCapot ∧
        g.contract.target.score ≤ g.points g.contract.author.team)) →
      g.get_game_result =
        .GameOver g.points g.contract.author.team.opponent
          (fun tm => if tm = g.contract.author.team.opponent then 160 else 0)) := by
  have hover : g.is_over = true := by simp [GameState.is_over, h8]
  constructor
  · intro hv
    have hvb := (victory_iff g.contract.target (g.points g.contract.author.team)
      (g.is_capot g.contract.author.team)).mpr hv
    simp [GameState.get_game_result, hover, hvb]
  · intro hv
    have hvb : g.contract.target.victory (g.points g.contract.author.team)
        (g.is_capot g.contract.author.team) = false := by
      cases hb : g.contract.target.victory (g.points g.contract.author.team)
          (g.is_capot g.contract.author.team) with
      | false => rfl
      | true =>
          exact absurd ((victory_iff g.contract.target (g.points g.contract.author.team)
            (g.is_capot g.contract.author.team)).mp hb) hv
    simp [GameState.get_game_result, hover, hvb]

/-- Witness for C6 at a concrete input: a finished round with target 80 and
90 points taken — the taking team `T02` wins and scores 80. -/
theorem C6_round_scoring_witness :
    gOver.get_game_result =
      .GameOver gOver.points Team.T02 (fun tm => if tm = Team.T02 then 80 else 0) :=
  (C6_round_scoring gOver rfl).1 (Or.inr ⟨by decide, by decide⟩)

/-! ## C7 — trick resolution inside `play_card` -/

/-- C7: for a successful `play_card`, if the play completes the current
trick then the trick's score is credited to the winning seat's team (with
the 10-point last-trick bonus on the 8th trick, in which case the round is
over), otherwise a fresh trick opened by the winner is appended; in both
completing cases the turn passes to the winner, and in the non-completing
case it passes to the next seat cyclically. -/
theorem C7_trick_resolution (g : GameState) (p : PlayerPos) (c : Card)
    (r : TrickResult) (g' : GameState) (t : Trick) (b : Bool) (t' : Trick)
    (hlast : g.tricks.getLast? = some t)
    (hplay : t.play_card p c g.contract.trump = (b, t'))
    (hok : g.play_card p c = .ok (r, g')) :
    (b = true →
      g'.current = t'.winner ∧
      g'.points t'.winner.team =
        g.points t'.winner.team + t'.score g.contract.trump +
          (if g.tricks.length = 8 then 10 else 0) ∧
      (∀ tm, tm ≠ t'.winner.team → g'.points tm = g.points tm) ∧
      (g.tricks.length = 8 → g'.is_over = true) ∧
      (g.tricks.length ≠ 8 →
        g'.tricks = (g.tricks.dropLast ++ [t']) ++ [Trick.new t'.winner]) ∧
      r = .TrickOver t'.winner g'.get_game_result) ∧
    (b = false →
      g'.current = g.current.next ∧ g'.points = g.points ∧
      g'.tricks = g.tricks.dropLast ++ [t'] ∧ r = .Nothing) := by
  have hnil : g.tricks ≠ [] := list_ne_nil_of_getLast g.tricks t hlast
  unfold GameState.play_card at hok
  split at hok
  · cases hok
  · split at hok
    · cases hok
    · rename_i t2 heq
      rw [hlast] at heq
      injection heq with heq
      subst heq
      split at hok
      · cases hok
      · simp only [hplay] at hok
        cases b with
        | true =>
            simp only [if_true] at hok
            by_cases h8 : g.tricks.length = 8
            · rw [if_pos h8] at hok
              simp only [Except.ok.injEq, Prod.mk.injEq] at hok
              obtain ⟨rfl, rfl⟩ := hok
              refine ⟨fun _ => ⟨rfl, ?_, ?_, ?_, ?_, rfl⟩, fun hb => by cases hb⟩
              · simp [h8]
              · intro tm htm
                simp [htm]
              · intro _
                simp [GameState.is_over, length_dropLast_snoc g.tricks t' hnil, h8]
              · intro h8n
                exact absurd h8 h8n
            · rw [if_neg h8] at hok
              simp only [Except.ok.injEq, Prod.mk.injEq] at hok
              obtain ⟨rfl, rfl⟩ := hok
              refine ⟨fun _ => ⟨rfl, ?_, ?_, ?_, ?_, rfl⟩, fun hb => by cases hb⟩
              · simp [h8]
              · intro tm htm
                simp [htm]
              · intro h8p
                exact absurd h8p h8
              · intro _
                rfl
        | false =>
            rw [if_neg (by simp)] at hok
            injection hok with hok
            injection hok with h1 h2
            subst h1
            subst h2
            exact ⟨fun hb => absurd hb Bool.false_ne_true, fun _ => ⟨rfl, rfl, rfl, rfl⟩⟩

/-- Witness for C7 at a concrete input: `P3` completes the first trick by
overtrumping; the winner `P3` collects the 26 trick points for `T13`, a new
trick opened by `P3` is appended, and the turn passes to `P3`. -/
theorem C7_trick_resolution_witness :
    gC7sq.current = tC7sq.winner ∧
    gC7sq.points tC7sq.winner.team =
      gC7.points tC7sq.winner.team + tC7sq.score gC7.contract.trump +
        (if gC7.tricks.length = 8 then 10 else 0) ∧
    gC7sq.tricks = (gC7.tricks.dropLast ++ [tC7sq]) ++ [Trick.new tC7sq.winner] := by
  have h := (C7_trick_resolution gC7 .P3 (Card.new .Heart .RankJ)
    (.TrickOver .P3 gC7sq.get_game_result) gC7sq tC7 true tC7sq rfl rfl rfl).1 rfl
  exact ⟨h.1, h.2.1, h.2.2.2.2.1 (by decide)⟩

/-! ## C1 — `play_card` does not remove the played card from the hand -/

/-- C1 (failing evaluation): in the fresh game `gC1`, `P0` holds the 7 of
clubs, successfully plays it, and still holds it afterwards — `play_card` in
this snapshot never calls `Hand::remove`, so all four hands are unchanged,
contradicting the claim that the played card is removed and the hand
shrinks by one. -/
theorem C1_played_card_stays_in_hand :
    (gC1.players .P0).has cC1 = true ∧
    gC1.play_card .P0 cC1 = .ok (.Nothing, gC1') ∧
    gC1'.players = gC1.players ∧
    (gC1'.players .P0).has cC1 = true :=
  ⟨rfl, rfl, rfl, rfl⟩


end Libcoinche
